import Mathlib

set_option maxHeartbeats 1000000
set_option maxRecDepth 8000

/-!
Shallow embedding of `src/scripts/combine.ts` from the `bsqmods` repository.

The script builds a catalog of mod records grouped by game version.  For each
mod it runs `processQmod`, which consults a hash cache keyed by download URL,
downloads or reuses the package, inspects the archive for a manifest and a
cover image, normalizes the cover, and reports messages / warnings / errors.
The catalog loop validates every mod file fatally (filename convention,
required fields, modloader), normalizes every recognized field, and admits the
mod into the catalog exactly when the error list is empty, deleting the hash
cache entry otherwise.

External effects (network, file system, archive and image libraries) are
modelled as oracles in an `Env` structure; the mutable hash cache and file set
are passed explicitly.  JavaScript exceptions thrown by `processQmod` are
modelled with `Except String`.
-/

namespace Combine

/-- JS truthiness of an optional string value: `null`/`undefined` and the
empty string are falsy, every other string is truthy. -/
def truthy : Option String → Bool
  | none => false
  | some s => decide (s ≠ "")

/-- Drop leading whitespace characters from a character list. -/
def dropWhileWs : List Char → List Char
  | [] => []
  | c :: cs => if c.isWhitespace then dropWhileWs cs else c :: cs

/-- JS `String.prototype.trim`: remove leading and trailing whitespace.
Defined by structural recursion over the character list so that it reduces on
literals. -/
def jsTrim (s : String) : String :=
  ⟨(dropWhileWs ((dropWhileWs s.data).reverse)).reverse⟩

/-- Modelled from the spec: the shared helper `isNullOrWhitespace` (its source
lives outside `src/`): true when the value is absent or trims to the empty
string. -/
def isNullOrWhitespace : Option String → Bool
  | none => true
  | some s => decide (jsTrim s = "")

/-- JS `a || b` for two optional string values: the first truthy operand wins. -/
def jsOr (a b : Option String) : Option String :=
  if truthy a then a else b

/-- JS `a || d` for an optional string with a plain string default. -/
def jsOrStr (a : Option String) (d : String) : String :=
  match a with
  | none => d
  | some s => if s = "" then d else s

/-- Modelled from the spec: the recognized keys of a mod record (the shared
`Mod` type and its `modKeys` list live outside `src/`): identifier, display
name, version, modloader tag, download URL, cover URL, content hash, plus
auxiliary descriptive fields. -/
inductive ModKey
  | name
  | description
  | id
  | version
  | author
  | modloader
  | download
  | source
  | cover
  | funding
  | website
  | hash
deriving DecidableEq

/-- Modelled from the spec: a mod record; every recognized field is an
optional string (absent models both JSON-missing and `null`). -/
structure Mod where
  name : Option String := none
  description : Option String := none
  id : Option String := none
  version : Option String := none
  author : Option String := none
  modloader : Option String := none
  download : Option String := none
  source : Option String := none
  cover : Option String := none
  funding : Option String := none
  website : Option String := none
  hash : Option String := none
deriving DecidableEq

/-- Field lookup by key, `mod[key]`. -/
def Mod.get (m : Mod) : ModKey → Option String
  | .name => m.name
  | .description => m.description
  | .id => m.id
  | .version => m.version
  | .author => m.author
  | .modloader => m.modloader
  | .download => m.download
  | .source => m.source
  | .cover => m.cover
  | .funding => m.funding
  | .website => m.website
  | .hash => m.hash

/-- Field update by key, `mod[key] = v`. -/
def Mod.set (m : Mod) : ModKey → Option String → Mod
  | .name, v => { m with name := v }
  | .description, v => { m with description := v }
  | .id, v => { m with id := v }
  | .version, v => { m with version := v }
  | .author, v => { m with author := v }
  | .modloader, v => { m with modloader := v }
  | .download, v => { m with download := v }
  | .source, v => { m with source := v }
  | .cover, v => { m with cover := v }
  | .funding, v => { m with funding := v }
  | .website, v => { m with website := v }
  | .hash, v => { m with hash := v }

/-- The enumeration order of the recognized keys. -/
def modKeys : List ModKey :=
  [.name, .description, .id, .version, .author, .modloader,
   .download, .source, .cover, .funding, .website, .hash]

/-- Modelled from the spec: `path.join` on the abstract path strings used here. -/
def pjoin (a b : String) : String := a ++ "/" ++ b

/-- Modelled from the spec: the repository root constant (from `paths.ts`,
outside `src/`). -/
def repoDir : String := "repo"

/-- Modelled from the spec: the directory of per-version mod metadata files. -/
def modsPath : String := pjoin repoDir "mods"

/-- Modelled from the spec: the directory where downloaded packages are stored. -/
def qmodsPath : String := pjoin repoDir "qmods"

/-- Modelled from the spec: the directory of content-addressed cover files. -/
def coversPath : String := pjoin repoDir "covers"

/-- Modelled from the spec: `getFilename` (outside `src/`) builds the
canonical per-mod path `base/gameVersion/id-version.ext` from the mod's own
id, version and target game version. -/
def getFilename (id version gameVersion basePath ext : String) : String :=
  pjoin basePath (pjoin gameVersion (id ++ "-" ++ version ++ "." ++ ext))

/-- JS `String.prototype.substring(n)`: drop the first `n` characters.
Defined over the character list so that it reduces cheaply. -/
def strDrop (s : String) (n : Nat) : String := ⟨s.data.drop n⟩

/-- Accumulator pass for `pathBasename`: collects the characters of the
current path component and resets at every slash. -/
def basenameAux : List Char → List Char → List Char
  | acc, [] => acc.reverse
  | acc, c :: cs => if c = '/' then basenameAux [] cs else basenameAux (c :: acc) cs

/-- Modelled from the spec: `path.basename`, the final path component. -/
def pathBasename (s : String) : String := ⟨basenameAux [] s.data⟩

/-- The public cover URL `urlBase/covers/basename` built by the script. -/
def coverUrl (urlBase coverFilename : String) : String :=
  urlBase ++ "/covers/" ++ pathBasename coverFilename

/-- The in-memory hash cache, mapping a download URL to a content hash. -/
abbrev HashCache : Type := String → Option String

/-- The set of files present on disk, by exact path. -/
abbrev FileSet : Type := String → Bool

/-- Store a cache entry: `hashes[k] = v`. -/
def setKey (c : HashCache) (k v : String) : HashCache :=
  fun x => if x = k then some v else c x

/-- Remove a cache entry: `delete hashes[k]`. -/
def delKey (c : HashCache) (k : String) : HashCache :=
  fun x => if x = k then none else c x

/-- Create or delete a file at a path. -/
def setFile (fs : FileSet) (p : String) (b : Bool) : FileSet :=
  fun x => if x = p then b else fs x

/-- The empty hash cache. -/
def emptyCache : HashCache := fun _ => none

/-- The empty file system. -/
def emptyFs : FileSet := fun _ => false

/-- Transcribed from `QmodResult`: the per-mod processing outcome of
messages, errors, warnings and the resolved hash. -/
structure QmodResult where
  messages : List String
  errors : List String
  warnings : List String
  hash : Option String
deriving DecidableEq

/-- The two cover-filename fields read from a parsed archive manifest. -/
structure InfoJson where
  coverImageFilename : Option String := none
  coverImage : Option String := none
deriving DecidableEq

/-- Oracle view of an opened archive: which entry names exist, the parse
result of a manifest entry (`none` models `JSON.parse` throwing), and the
bytes of a cover entry (`none` models the read throwing). -/
structure Zip where
  hasFile : String → Bool
  parseInfo : String → Option InfoJson
  coverBytes : String → Option Nat

/-- Oracles for every external effect used by the script: liveness probe,
file download (`none` models failure), whether the download attempt leaves a
file at the destination, local file hashing, archive opening (`none` models
`JSZip.loadAsync` throwing), direct cover fetching (`none` models a throw,
`some none` a `null` result), and the image encoder (`sharpOk b = false`
models `sharp` throwing with message `sharpErrMsg b`). -/
structure Env where
  checkUrl : String → Bool
  download : String → String → Option String
  downloadWrites : String → String → Bool
  localHash : String → String
  loadZip : String → Option Zip
  fetchCover : String → Option (Option Nat)
  sharpOk : Nat → Bool
  sharpErrMsg : Nat → String

/-- The command-line directives consulted by the script. -/
structure Args where
  skipHashes : Bool
  recheckUrls : Bool
  urlBase : String

/-- The warning pushed when a declared cover entry is missing from the
archive (combine.ts lines 156–161). -/
def coverNotFoundMsg (qmodPath cname : String) : String :=
  "Cover file not found: " ++ pjoin (strDrop qmodPath (qmodsPath.length + 1)) cname

/-- Result of the cover-buffer acquisition step. -/
structure CoverFetch where
  buf : Option Nat
  warnings : List String

/-- Cover-buffer acquisition step of `processQmod` (lines 178–188): read the
in-archive cover entry if one was found, otherwise fetch the mod's direct
cover URL; a throw is caught and reported as a warning. -/
def getCoverBuffer (env : Env) (zip : Zip) (mod : Mod) (coverEntry : Option String) : CoverFetch :=
  match coverEntry with
  | some cname =>
    match zip.coverBytes cname with
    | none => ⟨none, ["Error fetching cover buffer"]⟩
    | some b => ⟨some b, []⟩
  | none =>
    if truthy mod.cover then
      match env.fetchCover (mod.cover.getD "") with
      | none => ⟨none, ["Error fetching cover buffer"]⟩
      | some ob => ⟨ob, []⟩
    else ⟨none, []⟩

/-- Result of the cover normalize-and-write step. -/
structure CoverWrite where
  mod : Mod
  fs : FileSet
  warnings : List String
  encodes : List String

/-- Cover normalize-and-write step of `processQmod` (lines 190–213): when the
content-addressed file already exists the encode is skipped entirely and the
cover link is still set; otherwise the image is encoded and written, and an
encoder throw is caught as warnings without setting the link.  `encodes`
records every invocation of the image encoder. -/
def writeCoverStage (args : Args) (env : Env) (mod : Mod) (coverFilename : String)
    (buf : Option Nat) (fs : FileSet) : CoverWrite :=
  match buf with
  | none => ⟨mod, fs, [], []⟩
  | some b =>
    if fs coverFilename then
      ⟨{ mod with cover := some (coverUrl args.urlBase coverFilename) }, fs, [], []⟩
    else if env.sharpOk b then
      ⟨{ mod with cover := some (coverUrl args.urlBase coverFilename) },
        setFile fs coverFilename true, [], [coverFilename]⟩
    else
      ⟨mod, fs, ["Error processing cover file", env.sharpErrMsg b], [coverFilename]⟩

/-- Everything `processQmod` produces: the outcome, the (possibly
cover-mutated) mod record, the updated cache and file system, and logs of the
downloads, archive loads and image encodes performed. -/
structure PQOut where
  result : QmodResult
  mod : Mod
  hashes : HashCache
  fs : FileSet
  downloads : List String
  archiveLoads : List String
  encodes : List String

/-- Manifest-parsed portion of `processQmod` (lines 146–163 and 178–215):
resolve the declared cover filename with JS `||`, look the entry up in the
archive (warning when missing), acquire cover bytes, and run the cover write
stage. -/
def coverStage (args : Args) (env : Env) (mod0 : Mod) (zip : Zip) (json : InfoJson)
    (qmodPath coverFilename h : String) (msgs : List String)
    (hashes2 : HashCache) (fs1 : FileSet) (downloads : List String) : PQOut :=
  let cif := jsOr json.coverImageFilename json.coverImage
  let declared : Bool := !(isNullOrWhitespace cif) && decide (cif ≠ some "undefined")
  let coverEntry : Option String :=
    if declared && zip.hasFile (cif.getD "") then some (cif.getD "") else none
  let warn1 : List String :=
    if declared && !(zip.hasFile (cif.getD "")) then
      [coverNotFoundMsg qmodPath (cif.getD "")]
    else []
  let cf := getCoverBuffer env zip mod0 coverEntry
  let cw := writeCoverStage args env mod0 coverFilename cf.buf fs1
  ⟨⟨msgs, [], warn1 ++ cf.warnings ++ cw.warnings, some h⟩, cw.mod, hashes2, cw.fs,
    downloads, [qmodPath], cw.encodes⟩

/-- Manifest-selection portion of `processQmod` (lines 142–171): pick
`bmbfmod.json` before `mod.json` and parse it; a parse throw rejects the mod
with `Processing <name>`. -/
def manifestStage (args : Args) (env : Env) (mod0 : Mod) (zip : Zip)
    (qmodPath coverFilename h : String) (msgs : List String)
    (hashes2 : HashCache) (fs1 : FileSet) (downloads : List String) : PQOut :=
  let iname := if zip.hasFile "bmbfmod.json" then "bmbfmod.json" else "mod.json"
  match zip.parseInfo iname with
  | none =>
    ⟨⟨msgs, ["Processing " ++ iname], [], some h⟩, mod0, hashes2, fs1, downloads, [qmodPath], []⟩
  | some json =>
    coverStage args env mod0 zip json qmodPath coverFilename h msgs hashes2 fs1 downloads

/-- Archive-open portion of `processQmod` (lines 137–176): an unreadable
archive rejects the mod with `Reading archive` and deletes the downloaded
file; an archive with neither accepted manifest name rejects the mod with
`No info json` and keeps the file. -/
def archiveStage (args : Args) (env : Env) (mod0 : Mod)
    (qmodPath coverFilename h : String) (msgs : List String)
    (hashes2 : HashCache) (fs1 : FileSet) (downloads : List String) : PQOut :=
  match env.loadZip qmodPath with
  | none =>
    ⟨⟨msgs, ["Reading archive"], [], some h⟩, mod0, hashes2,
      setFile fs1 qmodPath false, downloads, [qmodPath], []⟩
  | some zip =>
    if zip.hasFile "bmbfmod.json" || zip.hasFile "mod.json" then
      manifestStage args env mod0 zip qmodPath coverFilename h msgs hashes2 fs1 downloads
    else
      ⟨⟨msgs, ["No info json"], [], some h⟩, mod0, hashes2, fs1, downloads, [qmodPath], []⟩

/-- Cache-miss portion of `processQmod` (lines 103–135): reuse an existing
local file's hash or download, report `Not found` on download failure, store
the hash in the cache, and hand over to the archive stage. -/
def freshStage (args : Args) (env : Env) (mod0 : Mod) (gameVersion dl : String)
    (hashes1 : HashCache) (fs0 : FileSet) : PQOut :=
  let qmodPath :=
    getFilename (mod0.id.getD "") (mod0.version.getD "") gameVersion qmodsPath "qmod"
  let msgs := [dl]
  let fileHere := fs0 qmodPath
  let qh2 : Option String :=
    if fileHere then some (env.localHash qmodPath) else env.download dl qmodPath
  let fs1 : FileSet :=
    if fileHere then fs0 else setFile fs0 qmodPath (env.downloadWrites dl qmodPath)
  let downloads : List String := if fileHere then [] else [dl]
  match qh2 with
  | none => ⟨⟨msgs, ["Not found"], [], none⟩, mod0, hashes1, fs1, downloads, [], []⟩
  | some h =>
    if fs1 qmodPath then
      archiveStage args env mod0 qmodPath (pjoin coversPath (h ++ ".png")) h msgs
        (setKey hashes1 dl h) fs1 downloads
    else
      ⟨⟨msgs, ["Local file not found"], [], some h⟩, mod0, setKey hashes1 dl h, fs1,
        downloads, [], []⟩

/-- Transcription of `processQmod` (combine.ts lines 51–216).  `Except.error`
models a thrown `Error`.  The structure follows the source: skip directive,
cache lookup, optional liveness recheck, cache-hit early return, required
field guards, then the cache-miss stages above. -/
def processQmod (args : Args) (env : Env) (mod0 : Mod) (gameVersion : String)
    (hashes0 : HashCache) (fs0 : FileSet) : Except String PQOut :=
  if args.skipHashes then
    .ok ⟨⟨[], [], [], none⟩, mod0, hashes0, fs0, [], [], []⟩
  else
  let qh0 : Option String :=
    if truthy mod0.download then hashes0 (mod0.download.getD "") else none
  if truthy mod0.download then
    let dl := mod0.download.getD ""
    let recheckKill : Bool := args.recheckUrls && qh0.isSome && !(env.checkUrl dl)
    let hashes1 : HashCache := if recheckKill then delKey hashes0 dl else hashes0
    match (if recheckKill then none else qh0) with
    | some h =>
      let coverFilename := pjoin coversPath (h ++ ".png")
      let mod1 :=
        if fs0 coverFilename then
          { mod0 with cover := some (coverUrl args.urlBase coverFilename) }
        else mod0
      .ok ⟨⟨[], [], [], some h⟩, mod1, hashes1, fs0, [], [], []⟩
    | none =>
      if truthy mod0.id then
        if truthy mod0.version then
          if truthy mod0.download then
            .ok (freshStage args env mod0 gameVersion dl hashes1 fs0)
          else .error "Mod download not set"
        else .error "Mod version not set"
      else .error "Mod ID not set"
  else .error "Mod download not set."

/-- Transcription of the per-key normalization in the catalog loop
(lines 280–286): `(mod[key] || "").trim()`, with the empty string turned into
null. -/
def jsNormVal (o : Option String) : Option String :=
  let t := jsTrim (jsOrStr o "")
  if t = "" then none else some t

/-- The all-null record that `const uniformMod: Partial<Mod> = {}` starts from. -/
def blankMod : Mod := {}

/-- Transcription of the normalization loop: every recognized key is
normalized in `modKeys` order. -/
def uniformOf (m : Mod) : Mod :=
  modKeys.foldl (fun u k => u.set k (jsNormVal (m.get k))) blankMod

/-- Spec-side restatement of field normalization, for comparison: trim the
field; an absent field or one that trims to the empty string becomes null. -/
def trimOrNull : Option String → Option String
  | none => none
  | some s => if jsTrim s = "" then none else some (jsTrim s)

/-- Modelled from the spec: the static list of accepted mod-loader
identifiers (`validModLoaders.ts`, outside `src/`). -/
def validModLoaders : List String := ["QuestLoader", "Scotland2"]

/-- The fatal pre-validation the catalog loop performs for one
(game version, mod file) pair (lines 238–273): filename convention, the four
required fields, and the modloader tag; `some msg` models `exitWithError msg`
terminating the run with a non-zero status. -/
def fatalCheck (version modFilename : String) (mod : Mod) : Option String :=
  let modPath := pjoin (pjoin modsPath version) modFilename
  let shortModPath := strDrop modPath (repoDir.length + 1)
  let requiredFilename :=
    getFilename (jsOrStr mod.id "") (jsOrStr mod.version "") version modsPath "json"
  if shortModPath ≠ strDrop requiredFilename (repoDir.length + 1) then
    some ("Mod filename is not what it should be.  " ++ shortModPath ++ " should be " ++
      strDrop requiredFilename (repoDir.length + 1))
  else if isNullOrWhitespace mod.name then some "Mod name not set"
  else if isNullOrWhitespace mod.id then some "Mod id not set"
  else if isNullOrWhitespace mod.version then some "Mod version not set"
  else if isNullOrWhitespace mod.download then some "Mod download not set"
  else if mod.modloader.isNone || !(validModLoaders.contains (mod.modloader.getD "")) then
    some "Mod loader is invalid"
  else none

/-- Everything one iteration of the catalog loop produces for one mod file:
a fatal error (validation failure or a thrown exception), the admitted
normalized record if any, the processing outcome if the mod was processed,
the updated cache and file system, and the effect logs. -/
structure StepOut where
  fatal : Option String
  admitted : Option Mod
  result : Option QmodResult
  hashes : HashCache
  fs : FileSet
  downloads : List String
  archiveLoads : List String
  encodes : List String

/-- One iteration of the catalog loop for one (game version, mod file) pair
(lines 237–322): fatal validation, `processQmod`, normalization, and the
admission gate — on an empty error list attach the cache's hash under the
normalized download key and append; otherwise delete the cache entry under
the normalized download key. -/
def runStep (args : Args) (env : Env) (version modFilename : String) (mod : Mod)
    (hashes : HashCache) (fs : FileSet) : StepOut :=
  match fatalCheck version modFilename mod with
  | some e => ⟨some e, none, none, hashes, fs, [], [], []⟩
  | none =>
    match processQmod args env mod version hashes fs with
    | .error e => ⟨some e, none, none, hashes, fs, [], [], []⟩
    | .ok p =>
      let um := uniformOf p.mod
      if p.result.errors = [] then
        let um2 :=
          if truthy um.download then { um with hash := p.hashes (um.download.getD "") } else um
        ⟨none, some um2, some p.result, p.hashes, p.fs, p.downloads, p.archiveLoads, p.encodes⟩
      else
        let hashes2 :=
          if truthy um.download then delKey p.hashes (um.download.getD "") else p.hashes
        ⟨none, none, some p.result, hashes2, p.fs, p.downloads, p.archiveLoads, p.encodes⟩

/-- Accumulated output of processing the mod files of one game version. -/
structure FilesOut where
  fatal : Option String
  mods : List Mod
  hashes : HashCache
  fs : FileSet
  results : List QmodResult
  downloads : List String
  archiveLoads : List String
  encodes : List String

/-- The inner catalog loop over the mod files of one game version, in
enumeration order; a fatal error stops the whole run immediately. -/
def runFiles (args : Args) (env : Env) (version : String) :
    List (String × Mod) → HashCache → FileSet → FilesOut
  | [], hashes, fs => ⟨none, [], hashes, fs, [], [], [], []⟩
  | (f, mod) :: rest, hashes, fs =>
    let s := runStep args env version f mod hashes fs
    match s.fatal with
    | some e => ⟨some e, [], s.hashes, s.fs, [], s.downloads, s.archiveLoads, s.encodes⟩
    | none =>
      let r := runFiles args env version rest s.hashes s.fs
      ⟨r.fatal, s.admitted.toList ++ r.mods, r.hashes, r.fs,
        s.result.toList ++ r.results, s.downloads ++ r.downloads,
        s.archiveLoads ++ r.archiveLoads, s.encodes ++ r.encodes⟩

/-- The whole run: the catalog grouped by game version (written once at the
end when no fatal error occurred), the final cache and file system, the
ordered processing outcomes, and the effect logs. -/
structure RunOut where
  fatal : Option String
  catalog : List (String × List Mod)
  hashes : HashCache
  fs : FileSet
  results : List QmodResult
  downloads : List String
  archiveLoads : List String
  encodes : List String

/-- The outer catalog loop over the enumerated game versions, in order. -/
def runAll (args : Args) (env : Env) :
    List (String × List (String × Mod)) → HashCache → FileSet → RunOut
  | [], hashes, fs => ⟨none, [], hashes, fs, [], [], [], []⟩
  | (v, files) :: rest, hashes, fs =>
    let fo := runFiles args env v files hashes fs
    match fo.fatal with
    | some e =>
      ⟨some e, [(v, fo.mods)], fo.hashes, fo.fs, fo.results, fo.downloads,
        fo.archiveLoads, fo.encodes⟩
    | none =>
      let r := runAll args env rest fo.hashes fo.fs
      ⟨r.fatal, (v, fo.mods) :: r.catalog, r.hashes, r.fs, fo.results ++ r.results,
        fo.downloads ++ r.downloads, fo.archiveLoads ++ r.archiveLoads,
        fo.encodes ++ r.encodes⟩

/-- The outcome of a `processQmod` call, with a thrown exception collapsed to
an empty outcome; used to state closed evaluations without naming the full
`PQOut`. -/
def outResult (e : Except String PQOut) : QmodResult :=
  match e with
  | .ok p => p.result
  | .error _ => ⟨[], [], [], none⟩

/-- The mod record of a `processQmod` call, with a thrown exception collapsed
to the blank record. -/
def outMod (e : Except String PQOut) : Mod :=
  match e with
  | .ok p => p.mod
  | .error _ => blankMod

/-- The file system after a `processQmod` call, with a thrown exception
collapsed to the empty file system. -/
def outFs (e : Except String PQOut) : FileSet :=
  match e with
  | .ok p => p.fs
  | .error _ => emptyFs

/-- The encode log of a `processQmod` call, with a thrown exception collapsed
to the empty log. -/
def outEncodes (e : Except String PQOut) : List String :=
  match e with
  | .ok p => p.encodes
  | .error _ => []

/-! Basic lemmas about the embedding. -/

theorem truthy_of_not_blank {o : Option String} (h : isNullOrWhitespace o = false) :
    truthy o = true := by
  cases o with
  | none => simp [isNullOrWhitespace] at h
  | some s =>
    simp only [isNullOrWhitespace, decide_eq_false_iff_not] at h
    have hs : s ≠ "" := by
      intro he
      exact h (by subst he; rfl)
    simp [truthy, hs]

theorem uniformOf_get (m : Mod) (k : ModKey) :
    (uniformOf m).get k = jsNormVal (m.get k) := by
  cases k <;> rfl

theorem jsNormVal_eq_trimOrNull (o : Option String) : jsNormVal o = trimOrNull o := by
  cases o with
  | none => rfl
  | some s =>
    by_cases hs : s = ""
    · subst hs; rfl
    · simp [jsNormVal, trimOrNull, jsOrStr, hs]

theorem get_cover_update (m : Mod) (v : Option String) (k : ModKey) (hk : k ≠ ModKey.cover) :
    (({ m with cover := v } : Mod).get k) = m.get k := by
  cases k <;> simp_all [Mod.get]

theorem writeCoverStage_get (args : Args) (env : Env) (m : Mod) (cfn : String)
    (buf : Option Nat) (fs : FileSet) (k : ModKey) (hk : k ≠ ModKey.cover) :
    (writeCoverStage args env m cfn buf fs).mod.get k = m.get k := by
  cases buf with
  | none => rfl
  | some b =>
    simp only [writeCoverStage]
    split
    · exact get_cover_update _ _ _ hk
    · split
      · exact get_cover_update _ _ _ hk
      · rfl

theorem basenameAux_append (xs : List Char) (acc ys : List Char) :
    basenameAux acc (xs ++ '/' :: ys) = basenameAux [] ys := by
  induction xs generalizing acc with
  | nil => simp [basenameAux]
  | cons c cs ih =>
    by_cases hc : c = '/' <;> simp [basenameAux, hc, ih]

theorem basenameAux_no_slash (l : List Char) (acc : List Char) (h : ∀ c ∈ l, c ≠ '/') :
    basenameAux acc l = acc.reverse ++ l := by
  induction l generalizing acc with
  | nil => simp [basenameAux]
  | cons c cs ih =>
    have hc : c ≠ '/' := h c (by simp)
    rw [basenameAux, if_neg hc, ih _ (fun x hx => h x (by simp [hx]))]
    simp

theorem pathBasename_covers (h : String) (hs : '/' ∉ h.data) :
    pathBasename (pjoin coversPath (h ++ ".png")) = h ++ ".png" := by
  apply String.ext
  show basenameAux [] ((pjoin coversPath (h ++ ".png")).data) = (h ++ ".png").data
  have h1 : (pjoin coversPath (h ++ ".png")).data
      = "repo/covers".data ++ '/' :: (h.data ++ ".png".data) := by
    show ("repo/covers/" ++ (h ++ ".png")).data = _
    rw [String.data_append, String.data_append]
    have h2 : ("repo/covers/" : String).data = "repo/covers".data ++ ['/'] := by decide
    rw [h2, List.append_assoc]
    rfl
  rw [h1, basenameAux_append, basenameAux_no_slash, String.data_append]
  · rfl
  · intro c hc
    rcases List.mem_append.mp hc with hmem | hmem
    · intro he; exact hs (he ▸ hmem)
    · revert hmem
      have : ∀ c, c ∈ (".png" : String).data → c ≠ '/' := by decide
      exact this c

theorem fatalCheck_fields {v f : String} {m : Mod} (h : fatalCheck v f m = none) :
    isNullOrWhitespace m.name = false ∧ isNullOrWhitespace m.id = false ∧
    isNullOrWhitespace m.version = false ∧ isNullOrWhitespace m.download = false := by
  simp only [fatalCheck] at h
  by_cases h0 : strDrop (pjoin (pjoin modsPath v) f) (repoDir.length + 1) ≠
      strDrop (getFilename (jsOrStr m.id "") (jsOrStr m.version "") v modsPath "json")
        (repoDir.length + 1)
  · rw [if_pos h0] at h; exact Option.noConfusion h
  · rw [if_neg h0] at h
    by_cases h1 : isNullOrWhitespace m.name = true
    · rw [if_pos h1] at h; exact Option.noConfusion h
    · rw [if_neg h1] at h
      by_cases h2 : isNullOrWhitespace m.id = true
      · rw [if_pos h2] at h; exact Option.noConfusion h
      · rw [if_neg h2] at h
        by_cases h3 : isNullOrWhitespace m.version = true
        · rw [if_pos h3] at h; exact Option.noConfusion h
        · rw [if_neg h3] at h
          by_cases h4 : isNullOrWhitespace m.download = true
          · rw [if_pos h4] at h; exact Option.noConfusion h
          · exact ⟨by simpa using h1, by simpa using h2, by simpa using h3, by simpa using h4⟩

theorem coverStage_mod (args : Args) (env : Env) (m : Mod) (zip : Zip) (json : InfoJson)
    (qp cfn h : String) (msgs : List String) (c : HashCache) (fs : FileSet)
    (dls : List String) (k : ModKey) (hk : k ≠ ModKey.cover) :
    (coverStage args env m zip json qp cfn h msgs c fs dls).mod.get k = m.get k := by
  simp only [coverStage]
  exact writeCoverStage_get _ _ _ _ _ _ _ hk

theorem manifestStage_mod (args : Args) (env : Env) (m : Mod) (zip : Zip)
    (qp cfn h : String) (msgs : List String) (c : HashCache) (fs : FileSet)
    (dls : List String) (k : ModKey) (hk : k ≠ ModKey.cover) :
    (manifestStage args env m zip qp cfn h msgs c fs dls).mod.get k = m.get k := by
  simp only [manifestStage]
  split
  · rfl
  · exact coverStage_mod _ _ _ _ _ _ _ _ _ _ _ _ _ hk

theorem archiveStage_mod (args : Args) (env : Env) (m : Mod)
    (qp cfn h : String) (msgs : List String) (c : HashCache) (fs : FileSet)
    (dls : List String) (k : ModKey) (hk : k ≠ ModKey.cover) :
    (archiveStage args env m qp cfn h msgs c fs dls).mod.get k = m.get k := by
  simp only [archiveStage]
  split
  · rfl
  · split
    · exact manifestStage_mod _ _ _ _ _ _ _ _ _ _ _ _ hk
    · rfl

theorem freshStage_mod (args : Args) (env : Env) (m : Mod) (gv dl : String)
    (c : HashCache) (fs : FileSet) (k : ModKey) (hk : k ≠ ModKey.cover) :
    (freshStage args env m gv dl c fs).mod.get k = m.get k := by
  simp only [freshStage]
  repeat' split
  all_goals
    first
      | exact archiveStage_mod _ _ _ _ _ _ _ _ _ _ _ hk
      | rfl

theorem processQmod_isOk (args : Args) (env : Env) (m : Mod) (gv : String)
    (c : HashCache) (fs : FileSet)
    (hid : truthy m.id = true) (hver : truthy m.version = true)
    (hdl : truthy m.download = true) :
    ∃ p, processQmod args env m gv c fs = Except.ok p := by
  unfold processQmod
  split
  · exact ⟨_, rfl⟩
  · simp only [hid, hver, hdl]
    split
    · exact ⟨_, rfl⟩
    · exact ⟨_, rfl⟩

theorem processQmod_mod {args : Args} {env : Env} {m : Mod} {gv : String}
    {c : HashCache} {fs : FileSet} {p : PQOut}
    (hok : processQmod args env m gv c fs = Except.ok p)
    (k : ModKey) (hk : k ≠ ModKey.cover) : p.mod.get k = m.get k := by
  simp only [processQmod] at hok
  repeat' split at hok
  all_goals
    first
      | exact Except.noConfusion hok
      | (injection hok with h2; subst h2;
          first
            | rfl
            | exact freshStage_mod _ _ _ _ _ _ _ _ hk
            | exact get_cover_update _ _ _ hk)

/-! Concrete fixtures used by witnesses and counterexamples. -/

/-- Default command-line directives: no skipping, no rechecking, base `.`. -/
def wArgs : Args := ⟨false, false, "."⟩

/-- An archive containing only a parseable `mod.json` that declares no cover. -/
def wZip : Zip := ⟨fun n => n == "mod.json", fun _ => some ⟨none, none⟩, fun _ => none⟩

/-- A benign environment: every download succeeds with hash `deadbeef` and
leaves a file, archives open as `wZip`, cover fetches return null. -/
def wEnv : Env :=
  ⟨fun _ => true, fun _ _ => some "deadbeef", fun _ _ => true, fun _ => "deadbeef",
    fun _ => some wZip, fun _ => some none, fun _ => true, fun _ => "boom"⟩

/-- A well-formed mod record with a clean (already-trimmed) download URL. -/
def wMod : Mod :=
  { name := some "Foo"
    id := some "foo"
    version := some "1.0"
    modloader := some "Scotland2"
    download := some "http://x" }

/-- The same record with whitespace padding around the download URL. -/
def wModPad : Mod := { wMod with download := some " http://x " }

/-! Claim theorems. -/

/-- C8: field normalization — for every mod record (regardless of the
processing outcome, since this holds for all records) and every recognized
key, the normalized record computed by the catalog loop holds the
corresponding field trimmed of leading and trailing whitespace, with an
absent field or one that becomes empty after trimming set to null. -/
theorem c8_field_normalization (m : Mod) (k : ModKey) :
    (uniformOf m).get k = trimOrNull (m.get k) := by
  rw [uniformOf_get]
  exact jsNormVal_eq_trimOrNull _

/-- C10: implicit safety — under the precondition that the caller has already
verified id, version and download to be non-blank (as the catalog loop does
before every call), the four throw branches of `processQmod` are unreachable:
it always returns a `ProcessingOutcome`. -/
theorem c10_processQmod_never_throws (args : Args) (env : Env) (m : Mod) (gv : String)
    (c : HashCache) (fs : FileSet)
    (hid : isNullOrWhitespace m.id = false)
    (hver : isNullOrWhitespace m.version = false)
    (hdl : isNullOrWhitespace m.download = false) :
    ∃ p, processQmod args env m gv c fs = Except.ok p :=
  processQmod_isOk args env m gv c fs (truthy_of_not_blank hid)
    (truthy_of_not_blank hver) (truthy_of_not_blank hdl)

/-- Witness for C10: the hypotheses hold and the theorem applies at a
concrete input. -/
theorem c10_witness :
    (isNullOrWhitespace wMod.id = false ∧ isNullOrWhitespace wMod.version = false ∧
      isNullOrWhitespace wMod.download = false) ∧
    ∃ p, processQmod wArgs wEnv wMod "1.0.0" emptyCache emptyFs = Except.ok p :=
  ⟨⟨by decide, by decide, by decide⟩,
    c10_processQmod_never_throws wArgs wEnv wMod "1.0.0" emptyCache emptyFs
      (by decide) (by decide) (by decide)⟩

/-- C3: cache hit — when hashing is not skipped, the cache maps the mod's
download URL to hash `h`, and the recheck directive is absent or the liveness
probe succeeds, `processQmod` returns outcome hash `h` with empty message,
error and warning lists, performs no download, archive load or encode, leaves
the cache and file system untouched, and sets the mod's cover to a URL
referencing `covers/{h}.png` iff a file already exists at that path. -/
theorem c3_cache_hit (args : Args) (env : Env) (m : Mod) (gv u h : String)
    (c : HashCache) (fs : FileSet)
    (hskip : args.skipHashes = false)
    (hdl : m.download = some u) (hu : u ≠ "")
    (hcache : c u = some h)
    (hrl : args.recheckUrls = false ∨ env.checkUrl u = true)
    (hslash : '/' ∉ h.data) :
    ∃ p, processQmod args env m gv c fs = Except.ok p ∧
      p.result = ⟨[], [], [], some h⟩ ∧
      p.downloads = [] ∧ p.archiveLoads = [] ∧ p.encodes = [] ∧
      p.hashes = c ∧ p.fs = fs ∧
      (fs (pjoin coversPath (h ++ ".png")) = true →
        p.mod = { m with cover := some (args.urlBase ++ "/covers/" ++ (h ++ ".png")) }) ∧
      (fs (pjoin coversPath (h ++ ".png")) = false → p.mod = m) := by
  have htr : truthy m.download = true := by simp [hdl, truthy, hu]
  have hgetD : m.download.getD "" = u := by simp [hdl]
  refine ⟨⟨⟨[], [], [], some h⟩,
    if fs (pjoin coversPath (h ++ ".png")) = true then
      { m with cover := some (coverUrl args.urlBase (pjoin coversPath (h ++ ".png"))) }
    else m, c, fs, [], [], []⟩, ?_, rfl, rfl, rfl, rfl, rfl, rfl, ?_, ?_⟩
  · rcases hrl with h1 | h1 <;>
      simp [processQmod, hskip, htr, hgetD, hcache, h1]
  · intro hf
    simp only [hf, if_true, eq_self_iff_true]
    have : coverUrl args.urlBase (pjoin coversPath (h ++ ".png"))
        = args.urlBase ++ "/covers/" ++ (h ++ ".png") := by
      rw [coverUrl, pathBasename_covers h hslash]
    rw [this]
  · intro hf
    simp [hf]

/-- Witness for C3: the hypotheses hold and the theorem applies at a concrete
input with cached hash `abc123` and an existing cover file. -/
theorem c3_witness :
    (wArgs.skipHashes = false ∧ wMod.download = some "http://x" ∧
      setKey emptyCache "http://x" "abc123" "http://x" = some "abc123" ∧
      setFile emptyFs (pjoin coversPath ("abc123" ++ ".png")) true
        (pjoin coversPath ("abc123" ++ ".png")) = true) ∧
    ∃ p, processQmod wArgs wEnv wMod "1.0.0" (setKey emptyCache "http://x" "abc123")
        (setFile emptyFs (pjoin coversPath ("abc123" ++ ".png")) true) = Except.ok p ∧
      p.result = ⟨[], [], [], some "abc123"⟩ ∧
      p.downloads = [] ∧ p.archiveLoads = [] ∧ p.encodes = [] ∧
      p.hashes = setKey emptyCache "http://x" "abc123" ∧
      p.fs = setFile emptyFs (pjoin coversPath ("abc123" ++ ".png")) true ∧
      (setFile emptyFs (pjoin coversPath ("abc123" ++ ".png")) true
          (pjoin coversPath ("abc123" ++ ".png")) = true →
        p.mod = { wMod with cover := some (wArgs.urlBase ++ "/covers/" ++ ("abc123" ++ ".png")) }) ∧
      (setFile emptyFs (pjoin coversPath ("abc123" ++ ".png")) true
          (pjoin coversPath ("abc123" ++ ".png")) = false → p.mod = wMod) :=
  ⟨⟨by decide, by decide, by decide, by decide⟩,
    c3_cache_hit wArgs wEnv wMod "1.0.0" "http://x" "abc123"
      (setKey emptyCache "http://x" "abc123")
      (setFile emptyFs (pjoin coversPath ("abc123" ++ ".png")) true)
      (by decide) (by decide) (by decide) (by decide) (Or.inl (by decide)) (by decide)⟩

/-- Splitting a non-blank optional string: it is present and trims to a
non-empty string. -/
theorem not_blank_parts {o : Option String} (h : isNullOrWhitespace o = false) :
    ∃ s, o = some s ∧ jsTrim s ≠ "" := by
  cases o with
  | none => simp [isNullOrWhitespace] at h
  | some s => exact ⟨s, rfl, by simpa [isNullOrWhitespace] using h⟩

/-- The normalized download field of a record. -/
theorem uniformOf_download (m : Mod) :
    (uniformOf m).download = jsNormVal m.download :=
  uniformOf_get m .download

/-- Normalizing a present value whose trim is non-empty keeps the trim. -/
theorem jsNormVal_some {s : String} (h : jsTrim s ≠ "") :
    jsNormVal (some s) = some (jsTrim s) := by
  have hs : s ≠ "" := by rintro rfl; exact h rfl
  simp [jsNormVal, jsOrStr, hs, h]

/-- C4: download failure — for a mod that passes fatal validation, with no
cached hash for its download URL, no already-downloaded local file, and a
failing download, the single-mod run yields outcome messages `[url]` and
errors exactly `["Not found"]`, admits nothing into the catalog, and ends
with no cache entry for the mod's download URL. -/
theorem c4_download_failure (args : Args) (env : Env) (v f u : String) (m : Mod)
    (c : HashCache) (fs : FileSet)
    (hfc : fatalCheck v f m = none)
    (hskip : args.skipHashes = false)
    (hdl : m.download = some u)
    (hmiss : c u = none)
    (hnofile : fs (getFilename (m.id.getD "") (m.version.getD "") v qmodsPath "qmod") = false)
    (hfail : env.download u
      (getFilename (m.id.getD "") (m.version.getD "") v qmodsPath "qmod") = none) :
    (runAll args env [(v, [(f, m)])] c fs).fatal = none ∧
    (runAll args env [(v, [(f, m)])] c fs).catalog = [(v, [])] ∧
    (runAll args env [(v, [(f, m)])] c fs).results = [⟨[u], ["Not found"], [], none⟩] ∧
    (runAll args env [(v, [(f, m)])] c fs).hashes u = none := by
  obtain ⟨hn, hi, hv, hd⟩ := fatalCheck_fields hfc
  have htid := truthy_of_not_blank hi
  have htver := truthy_of_not_blank hv
  have htdl := truthy_of_not_blank hd
  have hgetD : m.download.getD "" = u := by rw [hdl]; rfl
  have htrim : jsTrim u ≠ "" := by
    have h1 : isNullOrWhitespace (some u) = false := by rw [← hdl]; exact hd
    simpa [isNullOrWhitespace] using h1
  have hpq : processQmod args env m v c fs = Except.ok
      ⟨⟨[u], ["Not found"], [], none⟩, m, c,
        setFile fs (getFilename (m.id.getD "") (m.version.getD "") v qmodsPath "qmod")
          (env.downloadWrites u
            (getFilename (m.id.getD "") (m.version.getD "") v qmodsPath "qmod")),
        [u], [], []⟩ := by
    simp [processQmod, hskip, htid, htver, htdl, hgetD, hmiss, freshStage, hnofile, hfail]
  have hud : (uniformOf m).download = some (jsTrim u) := by
    rw [uniformOf_download, hdl, jsNormVal_some htrim]
  have hstep : runStep args env v f m c fs =
      ⟨none, none, some ⟨[u], ["Not found"], [], none⟩, delKey c (jsTrim u),
        setFile fs (getFilename (m.id.getD "") (m.version.getD "") v qmodsPath "qmod")
          (env.downloadWrites u
            (getFilename (m.id.getD "") (m.version.getD "") v qmodsPath "qmod")),
        [u], [], []⟩ := by
    unfold runStep
    rw [hfc, hpq]
    simp [hud, truthy, htrim]
  refine ⟨?_, ?_, ?_, ?_⟩ <;> simp [runAll, runFiles, hstep]
  simp only [delKey]
  by_cases hh : u = jsTrim u
  · rw [if_pos hh]
  · rw [if_neg hh]; exact hmiss

/-- C5: local-file deletion policy — on the cache-miss download path, an
archive that cannot be opened at all yields error exactly `Reading archive`
and the downloaded local file is deleted, whereas an archive that opens but
contains neither `bmbfmod.json` nor `mod.json` yields error exactly
`No info json` (the mod is rejected, since the error list is non-empty) and
the downloaded local file is retained. -/
theorem c5_archive_file_policy (args : Args) (env : Env) (m : Mod) (gv u hsh qp : String)
    (c : HashCache) (fs : FileSet)
    (hskip : args.skipHashes = false)
    (hdl : m.download = some u) (hu : u ≠ "")
    (htid : truthy m.id = true) (htver : truthy m.version = true)
    (hmiss : c u = none)
    (hqp : qp = getFilename (m.id.getD "") (m.version.getD "") gv qmodsPath "qmod")
    (hnofile : fs qp = false)
    (hdlok : env.download u qp = some hsh)
    (hwrites : env.downloadWrites u qp = true) :
    (env.loadZip qp = none →
      (outResult (processQmod args env m gv c fs)).errors = ["Reading archive"] ∧
      outFs (processQmod args env m gv c fs) qp = false) ∧
    (∀ zip, env.loadZip qp = some zip →
      zip.hasFile "bmbfmod.json" = false → zip.hasFile "mod.json" = false →
      (outResult (processQmod args env m gv c fs)).errors = ["No info json"] ∧
      outFs (processQmod args env m gv c fs) qp = true) := by
  have htdl : truthy m.download = true := by simp [truthy, hdl, hu]
  have hgetD : m.download.getD "" = u := by rw [hdl]; rfl
  constructor
  · intro hz
    constructor <;>
      simp [outResult, outFs, processQmod, freshStage, archiveStage, hskip, htdl, htid,
        htver, hgetD, hmiss, ← hqp, hnofile, hdlok, hwrites, hz, setFile]
  · intro zip hz h1 h2
    constructor <;>
      simp [outResult, outFs, processQmod, freshStage, archiveStage, hskip, htdl, htid,
        htver, hgetD, hmiss, ← hqp, hnofile, hdlok, hwrites, hz, h1, h2, setFile]

/-- An environment whose archives are unreadable. -/
def wEnvBadZip : Env :=
  ⟨fun _ => true, fun _ _ => some "deadbeef", fun _ _ => true, fun _ => "deadbeef",
    fun _ => none, fun _ => some none, fun _ => true, fun _ => "boom"⟩

/-- An archive with no manifest entry at all. -/
def wZipEmpty : Zip := ⟨fun _ => false, fun _ => none, fun _ => none⟩

/-- An environment whose archives open but contain no manifest. -/
def wEnvNoInfo : Env :=
  ⟨fun _ => true, fun _ _ => some "deadbeef", fun _ _ => true, fun _ => "deadbeef",
    fun _ => some wZipEmpty, fun _ => some none, fun _ => true, fun _ => "boom"⟩

/-- Witness for C5: both conjuncts applied at concrete inputs — an unreadable
archive (first) and an archive with no manifest (second). -/
theorem c5_witness :
    ((wEnvBadZip.loadZip (getFilename "foo" "1.0" "1.0.0" qmodsPath "qmod") = none ∧
      (outResult (processQmod wArgs wEnvBadZip wMod "1.0.0" emptyCache emptyFs)).errors
        = ["Reading archive"] ∧
      outFs (processQmod wArgs wEnvBadZip wMod "1.0.0" emptyCache emptyFs)
        (getFilename "foo" "1.0" "1.0.0" qmodsPath "qmod") = false) ∧
    (wEnvNoInfo.loadZip (getFilename "foo" "1.0" "1.0.0" qmodsPath "qmod") = some wZipEmpty ∧
      (outResult (processQmod wArgs wEnvNoInfo wMod "1.0.0" emptyCache emptyFs)).errors
        = ["No info json"] ∧
      outFs (processQmod wArgs wEnvNoInfo wMod "1.0.0" emptyCache emptyFs)
        (getFilename "foo" "1.0" "1.0.0" qmodsPath "qmod") = true)) :=
  ⟨⟨rfl,
    (c5_archive_file_policy wArgs wEnvBadZip wMod "1.0.0" "http://x" "deadbeef"
        (getFilename "foo" "1.0" "1.0.0" qmodsPath "qmod") emptyCache emptyFs
        (by decide) (by decide) (by decide) (by decide) (by decide) (by decide)
        (by decide) (by decide) (by decide) (by decide)).1 rfl⟩,
   ⟨rfl,
    (c5_archive_file_policy wArgs wEnvNoInfo wMod "1.0.0" "http://x" "deadbeef"
        (getFilename "foo" "1.0" "1.0.0" qmodsPath "qmod") emptyCache emptyFs
        (by decide) (by decide) (by decide) (by decide) (by decide) (by decide)
        (by decide) (by decide) (by decide) (by decide)).2 wZipEmpty
        rfl (by decide) (by decide)⟩⟩

/-- C7: cover idempotence — whenever cover bytes are obtained, either from a
declared in-archive entry or from the mod's direct cover URL, and a file
already exists at the content-addressed path `covers/{hash}.png`, no image
encode is performed, the file still exists, the outcome has no errors, and
the mod's cover is still set to a URL referencing that file. -/
theorem c7_cover_idempotence (args : Args) (env : Env) (m : Mod) (gv u hsh qp cfn : String)
    (zip : Zip) (json : InfoJson) (c : HashCache) (fs : FileSet)
    (hskip : args.skipHashes = false)
    (hdl : m.download = some u) (hu : u ≠ "")
    (htid : truthy m.id = true) (htver : truthy m.version = true)
    (hmiss : c u = none)
    (hqp : qp = getFilename (m.id.getD "") (m.version.getD "") gv qmodsPath "qmod")
    (hnofile : fs qp = false)
    (hdlok : env.download u qp = some hsh)
    (hwrites : env.downloadWrites u qp = true)
    (hzip : env.loadZip qp = some zip)
    (hb1 : zip.hasFile "bmbfmod.json" = false)
    (hb2 : zip.hasFile "mod.json" = true)
    (hparse : zip.parseInfo "mod.json" = some json)
    (hcfn : cfn = pjoin coversPath (hsh ++ ".png"))
    (hslash : '/' ∉ hsh.data)
    (hbuf : (∃ cn b, jsOr json.coverImageFilename json.coverImage = some cn ∧
        jsTrim cn ≠ "" ∧ cn ≠ "undefined" ∧ zip.hasFile cn = true ∧
        zip.coverBytes cn = some b) ∨
      (isNullOrWhitespace (jsOr json.coverImageFilename json.coverImage) = true ∧
        ∃ cu b, m.cover = some cu ∧ cu ≠ "" ∧ env.fetchCover cu = some (some b)))
    (hexists : fs cfn = true) :
    (outResult (processQmod args env m gv c fs)).errors = [] ∧
    outEncodes (processQmod args env m gv c fs) = [] ∧
    (outMod (processQmod args env m gv c fs)).cover =
      some (args.urlBase ++ "/covers/" ++ (hsh ++ ".png")) ∧
    outFs (processQmod args env m gv c fs) cfn = true := by
  subst hcfn
  subst hqp
  have htdl : truthy m.download = true := by simp [truthy, hdl, hu]
  have hgetD : m.download.getD "" = u := by rw [hdl]; rfl
  have hcu : coverUrl args.urlBase (pjoin coversPath (hsh ++ ".png"))
      = args.urlBase ++ "/covers/" ++ (hsh ++ ".png") := by
    rw [coverUrl, pathBasename_covers hsh hslash]
  have hfs1 : setFile fs (getFilename (m.id.getD "") (m.version.getD "") gv qmodsPath "qmod")
      (env.downloadWrites u (getFilename (m.id.getD "") (m.version.getD "") gv qmodsPath "qmod"))
      (pjoin coversPath (hsh ++ ".png")) = true := by
    by_cases hpq2 : pjoin coversPath (hsh ++ ".png")
        = getFilename (m.id.getD "") (m.version.getD "") gv qmodsPath "qmod" <;>
      simp [setFile, hpq2, hexists, hwrites]
  rcases hbuf with ⟨cn, b, hcn, hcnt, hcnu, hcnf, hcb⟩ | ⟨hblank, cu2, b, hcov, hcu2, hfetch⟩
  · refine ⟨?_, ?_, ?_, ?_⟩ <;>
      simp [outResult, outEncodes, outMod, outFs, processQmod, freshStage, archiveStage,
        manifestStage, coverStage, getCoverBuffer, writeCoverStage, hskip, htdl, htid, htver,
        hgetD, hmiss, hnofile, hdlok, hwrites, hzip, hb1, hb2, hparse, hcn, hcnt, hcnu,
        hcnf, hcb, isNullOrWhitespace, hfs1, hcu, hexists, setFile]
  · have hctruthy : truthy m.cover = true := by simp [truthy, hcov, hcu2]
    have hcgetD : m.cover.getD "" = cu2 := by rw [hcov]; rfl
    refine ⟨?_, ?_, ?_, ?_⟩ <;>
      simp [outResult, outEncodes, outMod, outFs, processQmod, freshStage, archiveStage,
        manifestStage, coverStage, getCoverBuffer, writeCoverStage, hskip, htdl, htid, htver,
        hgetD, hmiss, hnofile, hdlok, hwrites, hzip, hb1, hb2, hparse, hblank, hctruthy,
        hcgetD, hfetch, hfs1, hcu, hexists, setFile]

/-- An archive whose `mod.json` declares the cover entry `cover.png`, which
exists and reads successfully. -/
def wZipCover : Zip :=
  ⟨fun n => n == "mod.json" || n == "cover.png",
    fun _ => some ⟨some "cover.png", none⟩, fun _ => some 7⟩

/-- An environment serving `wZipCover` archives. -/
def wEnvCover : Env :=
  ⟨fun _ => true, fun _ _ => some "deadbeef", fun _ _ => true, fun _ => "deadbeef",
    fun _ => some wZipCover, fun _ => some none, fun _ => true, fun _ => "boom"⟩

/-- A file system already holding the content-addressed cover for `deadbeef`. -/
def wFsCover : FileSet := setFile emptyFs (pjoin coversPath ("deadbeef" ++ ".png")) true

/-- Witness for C7: the hypotheses hold and the theorem applies at a concrete
input whose archive declares an existing cover and whose cover file already
exists on disk. -/
theorem c7_witness :
    (wArgs.skipHashes = false ∧ wMod.download = some "http://x" ∧
      wZipCover.hasFile "cover.png" = true ∧
      wFsCover (pjoin coversPath ("deadbeef" ++ ".png")) = true) ∧
    ((outResult (processQmod wArgs wEnvCover wMod "1.0.0" emptyCache wFsCover)).errors = [] ∧
      outEncodes (processQmod wArgs wEnvCover wMod "1.0.0" emptyCache wFsCover) = [] ∧
      (outMod (processQmod wArgs wEnvCover wMod "1.0.0" emptyCache wFsCover)).cover =
        some (wArgs.urlBase ++ "/covers/" ++ ("deadbeef" ++ ".png")) ∧
      outFs (processQmod wArgs wEnvCover wMod "1.0.0" emptyCache wFsCover)
        (pjoin coversPath ("deadbeef" ++ ".png")) = true) :=
  ⟨⟨by decide, by decide, by decide, by decide⟩,
    c7_cover_idempotence wArgs wEnvCover wMod "1.0.0" "http://x" "deadbeef"
      (getFilename "foo" "1.0" "1.0.0" qmodsPath "qmod")
      (pjoin coversPath ("deadbeef" ++ ".png")) wZipCover ⟨some "cover.png", none⟩
      emptyCache wFsCover (by decide) (by decide) (by decide) (by decide) (by decide)
      (by decide) (by decide) (by decide) (by decide) (by decide) rfl (by decide)
      (by decide) rfl (by decide) (by decide)
      (Or.inl ⟨"cover.png", 7, by decide, by decide, by decide, by decide, rfl⟩)
      (by decide)⟩

/-- Spec-side restatement of the cover-filename selection, for comparison:
of the two accepted field names, the first non-blank one wins. -/
def specCoverField (j : InfoJson) : Option String :=
  if isNullOrWhitespace j.coverImageFilename = false then j.coverImageFilename
  else if isNullOrWhitespace j.coverImage = false then j.coverImage
  else none

/-- An archive whose `mod.json` declares a whitespace-only first cover field
and a non-blank second one naming a missing entry. -/
def wZipWs : Zip :=
  ⟨fun n => n == "mod.json", fun _ => some ⟨some " ", some "missing.png"⟩, fun _ => none⟩

/-- An environment serving `wZipWs` archives. -/
def wEnvWs : Env :=
  ⟨fun _ => true, fun _ _ => some "deadbeef", fun _ _ => true, fun _ => "deadbeef",
    fun _ => some wZipWs, fun _ => some none, fun _ => true, fun _ => "boom"⟩

/-- Counterexample for C6 as stated: with `coverImageFilename = " "`
(whitespace-only, hence blank but JS-truthy) and `coverImage = "missing.png"`
(non-blank and missing from the archive), the first-non-blank selection of
the claim picks `missing.png`, which is declared but absent, so the claim
requires a warning; the code selects by JS `||`, picks the whitespace value,
treats it as blank and emits no warning and no error. -/
theorem c6_counterexample :
    specCoverField ⟨some " ", some "missing.png"⟩ = some "missing.png" ∧
    isNullOrWhitespace (some "missing.png") = false ∧
    wZipWs.hasFile "missing.png" = false ∧
    (outResult (processQmod wArgs wEnvWs wMod "1.0.0" emptyCache emptyFs)).warnings = [] ∧
    (outResult (processQmod wArgs wEnvWs wMod "1.0.0" emptyCache emptyFs)).errors = [] := by
  refine ⟨by decide, by decide, by decide, by decide, by decide⟩

/-- C6 (amended): the declared cover filename is selected with JS `||` — the
first present-and-non-empty (JS-truthy) field wins, so a whitespace-only
first field wins over a non-blank second one; if the selected value is
absent, blank, or the literal `"undefined"`, no cover extraction is attempted
and (when the mod has no direct cover URL) no error or warning is emitted; if
the selected value is non-blank, not `"undefined"`, and no entry with exactly
that name exists in the archive, a warning is emitted and the mod is still
admitted (no error). -/
theorem c6_cover_field_resolution (args : Args) (env : Env) (m : Mod) (gv u hsh qp : String)
    (zip : Zip) (json : InfoJson) (c : HashCache) (fs : FileSet)
    (hskip : args.skipHashes = false)
    (hdl : m.download = some u) (hu : u ≠ "")
    (htid : truthy m.id = true) (htver : truthy m.version = true)
    (hmiss : c u = none)
    (hqp : qp = getFilename (m.id.getD "") (m.version.getD "") gv qmodsPath "qmod")
    (hnofile : fs qp = false)
    (hdlok : env.download u qp = some hsh)
    (hwrites : env.downloadWrites u qp = true)
    (hzip : env.loadZip qp = some zip)
    (hb1 : zip.hasFile "bmbfmod.json" = false)
    (hb2 : zip.hasFile "mod.json" = true)
    (hparse : zip.parseInfo "mod.json" = some json)
    (hnocover : truthy m.cover = false) :
    ((isNullOrWhitespace (jsOr json.coverImageFilename json.coverImage) = true ∨
        jsOr json.coverImageFilename json.coverImage = some "undefined") →
      (outResult (processQmod args env m gv c fs)).warnings = [] ∧
      (outResult (processQmod args env m gv c fs)).errors = [] ∧
      outEncodes (processQmod args env m gv c fs) = []) ∧
    (∀ cn, jsOr json.coverImageFilename json.coverImage = some cn →
      jsTrim cn ≠ "" → cn ≠ "undefined" → zip.hasFile cn = false →
      (outResult (processQmod args env m gv c fs)).warnings = [coverNotFoundMsg qp cn] ∧
      (outResult (processQmod args env m gv c fs)).errors = []) := by
  subst hqp
  have htdl : truthy m.download = true := by simp [truthy, hdl, hu]
  have hgetD : m.download.getD "" = u := by rw [hdl]; rfl
  constructor
  · intro hsel
    rcases hsel with hblank | hundef
    · refine ⟨?_, ?_, ?_⟩ <;>
        simp [outResult, outEncodes, processQmod, freshStage, archiveStage, manifestStage,
          coverStage, getCoverBuffer, writeCoverStage, hskip, htdl, htid, htver, hgetD,
          hmiss, hnofile, hdlok, hwrites, hzip, hb1, hb2, hparse, hblank, hnocover, setFile]
    · refine ⟨?_, ?_, ?_⟩ <;>
        simp [outResult, outEncodes, processQmod, freshStage, archiveStage, manifestStage,
          coverStage, getCoverBuffer, writeCoverStage, hskip, htdl, htid, htver, hgetD,
          hmiss, hnofile, hdlok, hwrites, hzip, hb1, hb2, hparse, hundef, hnocover, setFile]
  · intro cn hcn hcnt hcnu hcnf
    constructor <;>
      simp [outResult, processQmod, freshStage, archiveStage, manifestStage,
        coverStage, getCoverBuffer, writeCoverStage, hskip, htdl, htid, htver, hgetD,
        hmiss, hnofile, hdlok, hwrites, hzip, hb1, hb2, hparse, hcn, hcnt, hcnu, hcnf,
        isNullOrWhitespace, hnocover, setFile]

/-- An archive whose `mod.json` declares the cover entry `gone.png`, which
does not exist in the archive. -/
def wZipGone : Zip :=
  ⟨fun n => n == "mod.json", fun _ => some ⟨some "gone.png", none⟩, fun _ => none⟩

/-- An environment serving `wZipGone` archives. -/
def wEnvNoCover : Env :=
  ⟨fun _ => true, fun _ _ => some "deadbeef", fun _ _ => true, fun _ => "deadbeef",
    fun _ => some wZipGone, fun _ => some none, fun _ => true, fun _ => "boom"⟩

/-- Witness for C6 (amended): both conjuncts applied at concrete inputs — a
blank declared field with no direct cover URL (first), and a declared
filename missing from the archive (second). -/
theorem c6_witness :
    ((isNullOrWhitespace (jsOr (some " ") (some "missing.png")) = true ∧
      (outResult (processQmod wArgs wEnvWs wMod "1.0.0" emptyCache emptyFs)).warnings = [] ∧
      (outResult (processQmod wArgs wEnvWs wMod "1.0.0" emptyCache emptyFs)).errors = [] ∧
      outEncodes (processQmod wArgs wEnvWs wMod "1.0.0" emptyCache emptyFs) = []) ∧
    ((outResult (processQmod wArgs wEnvNoCover wMod "1.0.0" emptyCache emptyFs)).warnings =
        [coverNotFoundMsg (getFilename "foo" "1.0" "1.0.0" qmodsPath "qmod") "gone.png"] ∧
      (outResult (processQmod wArgs wEnvNoCover wMod "1.0.0" emptyCache emptyFs)).errors
        = [])) :=
  ⟨⟨by decide,
    (c6_cover_field_resolution wArgs wEnvWs wMod "1.0.0" "http://x" "deadbeef"
        (getFilename "foo" "1.0" "1.0.0" qmodsPath "qmod") wZipWs
        ⟨some " ", some "missing.png"⟩ emptyCache emptyFs (by decide) (by decide)
        (by decide) (by decide) (by decide) (by decide) (by decide) (by decide)
        (by decide) (by decide) rfl (by decide) (by decide) rfl (by decide)).1
      (Or.inl (by decide))⟩,
    (c6_cover_field_resolution wArgs wEnvNoCover wMod "1.0.0" "http://x" "deadbeef"
        (getFilename "foo" "1.0" "1.0.0" qmodsPath "qmod") wZipGone
        ⟨some "gone.png", none⟩ emptyCache emptyFs (by decide) (by decide)
        (by decide) (by decide) (by decide) (by decide) (by decide) (by decide)
        (by decide) (by decide) rfl (by decide) (by decide) rfl (by decide)).2
      "gone.png" (by decide) (by decide) (by decide) (by decide)⟩

/-- An environment whose downloads always fail and never leave a file. -/
def wEnvFail : Env :=
  ⟨fun _ => true, fun _ _ => none, fun _ _ => false, fun _ => "deadbeef",
    fun _ => some wZip, fun _ => some none, fun _ => true, fun _ => "boom"⟩

/-- Witness for C4: the hypotheses hold and the theorem applies at a concrete
single-mod run whose download fails. -/
theorem c4_witness :
    (fatalCheck "1.0.0" "foo-1.0.json" wMod = none ∧
      wArgs.skipHashes = false ∧ wMod.download = some "http://x" ∧
      emptyCache "http://x" = none ∧
      emptyFs (getFilename (wMod.id.getD "") (wMod.version.getD "") "1.0.0" qmodsPath "qmod")
        = false ∧
      wEnvFail.download "http://x"
        (getFilename (wMod.id.getD "") (wMod.version.getD "") "1.0.0" qmodsPath "qmod")
        = none) ∧
    ((runAll wArgs wEnvFail [("1.0.0", [("foo-1.0.json", wMod)])] emptyCache emptyFs).fatal
        = none ∧
      (runAll wArgs wEnvFail [("1.0.0", [("foo-1.0.json", wMod)])] emptyCache emptyFs).catalog
        = [("1.0.0", [])] ∧
      (runAll wArgs wEnvFail [("1.0.0", [("foo-1.0.json", wMod)])] emptyCache emptyFs).results
        = [⟨["http://x"], ["Not found"], [], none⟩] ∧
      (runAll wArgs wEnvFail [("1.0.0", [("foo-1.0.json", wMod)])] emptyCache
          emptyFs).hashes "http://x" = none) :=
  ⟨⟨by decide, by decide, by decide, by decide, by decide, by decide⟩,
    c4_download_failure wArgs wEnvFail "1.0.0" "foo-1.0.json" "http://x" wMod
      emptyCache emptyFs (by decide) (by decide) (by decide) (by decide)
      (by decide) (by decide)⟩

/-- Characterization of a catalog-loop step whose validation passes and whose
`processQmod` call returns: the admission gate on the error list, with the
hash attach (on success) or cache delete (on failure) keyed by the normalized
download field. -/
theorem runStep_ok {args : Args} {env : Env} {v f : String} {m : Mod}
    {c : HashCache} {fs : FileSet} {p : PQOut}
    (hfc : fatalCheck v f m = none)
    (hpq : processQmod args env m v c fs = Except.ok p) :
    runStep args env v f m c fs =
      if p.result.errors = [] then
        ⟨none, some (if truthy (uniformOf p.mod).download then
            { uniformOf p.mod with hash := p.hashes ((uniformOf p.mod).download.getD "") }
          else uniformOf p.mod),
          some p.result, p.hashes, p.fs, p.downloads, p.archiveLoads, p.encodes⟩
      else
        ⟨none, none, some p.result,
          if truthy (uniformOf p.mod).download then
            delKey p.hashes ((uniformOf p.mod).download.getD "")
          else p.hashes,
          p.fs, p.downloads, p.archiveLoads, p.encodes⟩ := by
  unfold runStep
  rw [hfc, hpq]

/-- Counterexample for C1 as stated: a single-mod run whose download URL
carries surrounding whitespace.  The download succeeds and the mod is
admitted, but the cache entry is stored under the raw key `" http://x "`
while the admitted hash is read under the trimmed key `"http://x"`, so the
admitted record's `hash` is null — refuting both the non-null part and the
equality with the cache entry for the mod's download URL. -/
theorem c1_counterexample :
    (runAll wArgs wEnv [("1.0.0", [("foo-1.0.json", wModPad)])] emptyCache emptyFs).fatal
      = none ∧
    ((runAll wArgs wEnv [("1.0.0", [("foo-1.0.json", wModPad)])] emptyCache
        emptyFs).catalog.map fun pr => (pr.1, pr.2.length)) = [("1.0.0", 1)] ∧
    (((runAll wArgs wEnv [("1.0.0", [("foo-1.0.json", wModPad)])] emptyCache
        emptyFs).catalog.headD ("", [])).2.headD blankMod).download = some "http://x" ∧
    (((runAll wArgs wEnv [("1.0.0", [("foo-1.0.json", wModPad)])] emptyCache
        emptyFs).catalog.headD ("", [])).2.headD blankMod).hash = none ∧
    (runAll wArgs wEnv [("1.0.0", [("foo-1.0.json", wModPad)])] emptyCache
        emptyFs).hashes " http://x " = some "deadbeef" ∧
    (runAll wArgs wEnv [("1.0.0", [("foo-1.0.json", wModPad)])] emptyCache
        emptyFs).hashes "http://x" = none := by
  refine ⟨by decide, by decide, by decide, by decide, by decide, by decide⟩

/-- C1 (amended): for every mod record admitted by a catalog-loop step, the
normalized download field is present, and the record's `hash` equals the Hash
Cache's value under that normalized (trimmed) download key at the moment of
admission.  Because entries are stored under the raw key, this value — and
hence the admitted `hash` — can be null when the raw URL is untrimmed, and a
later mod erroring on the same URL can delete the entry before the run ends,
so neither non-nullness nor agreement with the run-end cache holds. -/
theorem c1_admitted_hash_eq_cache (args : Args) (env : Env) (v f : String) (m : Mod)
    (c : HashCache) (fs : FileSet) (um : Mod)
    (hadm : (runStep args env v f m c fs).admitted = some um) :
    ∃ u, um.download = some u ∧
      um.hash = (runStep args env v f m c fs).hashes u := by
  cases hfc : fatalCheck v f m with
  | some e =>
    unfold runStep at hadm
    rw [hfc] at hadm
    exact Option.noConfusion hadm
  | none =>
    cases hpq : processQmod args env m v c fs with
    | error e =>
      unfold runStep at hadm
      rw [hfc, hpq] at hadm
      exact Option.noConfusion hadm
    | ok p =>
      obtain ⟨hn2, hi2, hv2, hd2⟩ := fatalCheck_fields hfc
      obtain ⟨u0, hdl0, htrim⟩ := not_blank_parts hd2
      have hpres : p.mod.download = m.download :=
        processQmod_mod hpq ModKey.download (by decide)
      have hud : (uniformOf p.mod).download = some (jsTrim u0) := by
        rw [uniformOf_download, hpres, hdl0, jsNormVal_some htrim]
      have htu : truthy (uniformOf p.mod).download = true := by
        simp [truthy, hud, htrim]
      rw [runStep_ok hfc hpq] at hadm ⊢
      by_cases herr : p.result.errors = []
      · rw [if_pos herr] at hadm ⊢
        simp only [htu, if_true] at hadm
        have hum : um = { uniformOf p.mod with
            hash := p.hashes ((uniformOf p.mod).download.getD "") } := by
          have h2 : some ({ uniformOf p.mod with
              hash := p.hashes ((uniformOf p.mod).download.getD "") }) = some um := hadm
          exact (Option.some.inj h2).symm
        refine ⟨jsTrim u0, ?_, ?_⟩
        · rw [hum]
          show (uniformOf p.mod).download = some (jsTrim u0)
          exact hud
        · rw [hum]
          show p.hashes ((uniformOf p.mod).download.getD "") = p.hashes (jsTrim u0)
          rw [hud]
          rfl
      · rw [if_neg herr] at hadm
        exact Option.noConfusion hadm

/-- The record admitted by the concrete witness step for C1. -/
def wUm : Mod :=
  { name := some "Foo"
    id := some "foo"
    version := some "1.0"
    modloader := some "Scotland2"
    download := some "http://x"
    hash := some "deadbeef" }

/-- Witness for C1 (amended): the hypothesis holds and the theorem applies at
a concrete step that admits a mod. -/
theorem c1_witness :
    (runStep wArgs wEnv "1.0.0" "foo-1.0.json" wMod emptyCache emptyFs).admitted =
      some wUm ∧
    ∃ u, wUm.download = some u ∧
      wUm.hash =
        (runStep wArgs wEnv "1.0.0" "foo-1.0.json" wMod emptyCache emptyFs).hashes u :=
  ⟨by decide,
    c1_admitted_hash_eq_cache wArgs wEnv "1.0.0" "foo-1.0.json" wMod emptyCache emptyFs
      wUm (by decide)⟩

/-- Counterexample for C2 as stated: a single-mod run whose download URL
carries surrounding whitespace and whose archive is unreadable.  The download
succeeds (the cache entry is stored under the raw key), then the mod is
rejected with `Reading archive`; the deletion uses the trimmed key, so after
the run the cache still contains an entry for the rejected mod's download
URL. -/
theorem c2_counterexample :
    (runAll wArgs wEnvBadZip [("1.0.0", [("foo-1.0.json", wModPad)])] emptyCache
        emptyFs).fatal = none ∧
    (runAll wArgs wEnvBadZip [("1.0.0", [("foo-1.0.json", wModPad)])] emptyCache
        emptyFs).catalog = [("1.0.0", [])] ∧
    (runAll wArgs wEnvBadZip [("1.0.0", [("foo-1.0.json", wModPad)])] emptyCache
        emptyFs).results =
      [⟨[" http://x "], ["Reading archive"], [], some "deadbeef"⟩] ∧
    (runAll wArgs wEnvBadZip [("1.0.0", [("foo-1.0.json", wModPad)])] emptyCache
        emptyFs).hashes " http://x " = some "deadbeef" := by
  refine ⟨by decide, by decide, by decide, by decide⟩

/-- C2 (amended): for every mod that passes the fatal pre-validation (and
whose processing returns), the normalized record is appended iff the
outcome's error list is empty; when it is non-empty the mod is not appended
and the Hash Cache entry under the mod's *trimmed* download URL is deleted at
that step.  The entry stored under the raw download key survives when the raw
URL differs from its trimmed form, and later mods may re-insert or delete
entries, so the run-end "no entry for any rejected mod" guarantee does not
hold in general. -/
theorem c2_admission_gate (args : Args) (env : Env) (v f : String) (m : Mod)
    (c : HashCache) (fs : FileSet)
    (hfatal : (runStep args env v f m c fs).fatal = none) :
    ((runStep args env v f m c fs).admitted.isSome = true ↔
      ((runStep args env v f m c fs).result.getD ⟨[], [], [], none⟩).errors = []) ∧
    (((runStep args env v f m c fs).result.getD ⟨[], [], [], none⟩).errors ≠ [] →
      (runStep args env v f m c fs).admitted = none ∧
      (runStep args env v f m c fs).hashes (jsTrim (m.download.getD "")) = none) := by
  cases hfc : fatalCheck v f m with
  | some e =>
    unfold runStep at hfatal
    rw [hfc] at hfatal
    exact Option.noConfusion hfatal
  | none =>
    cases hpq : processQmod args env m v c fs with
    | error e =>
      unfold runStep at hfatal
      rw [hfc, hpq] at hfatal
      exact Option.noConfusion hfatal
    | ok p =>
      obtain ⟨hn2, hi2, hv2, hd2⟩ := fatalCheck_fields hfc
      obtain ⟨u0, hdl0, htrim⟩ := not_blank_parts hd2
      have hpres : p.mod.download = m.download :=
        processQmod_mod hpq ModKey.download (by decide)
      have hud : (uniformOf p.mod).download = some (jsTrim u0) := by
        rw [uniformOf_download, hpres, hdl0, jsNormVal_some htrim]
      have htu : truthy (uniformOf p.mod).download = true := by
        simp [truthy, hud, htrim]
      have hmd : m.download.getD "" = u0 := by rw [hdl0]; rfl
      rw [runStep_ok hfc hpq]
      by_cases herr : p.result.errors = []
      · rw [if_pos herr]
        exact ⟨by simp [herr], fun hne => absurd herr hne⟩
      · rw [if_neg herr]
        refine ⟨by simp [herr], fun _ => ⟨rfl, ?_⟩⟩
        show (if truthy (uniformOf p.mod).download then
            delKey p.hashes ((uniformOf p.mod).download.getD "")
          else p.hashes) (jsTrim (m.download.getD "")) = none
        rw [if_pos htu, hmd, hud]
        show delKey p.hashes (jsTrim u0) (jsTrim u0) = none
        simp [delKey]

/-- Witness for C2 (amended): the hypothesis holds and the theorem applies at
a concrete step whose archive is unreadable (mod rejected). -/
theorem c2_witness :
    (runStep wArgs wEnvBadZip "1.0.0" "foo-1.0.json" wMod emptyCache emptyFs).fatal
      = none ∧
    (((runStep wArgs wEnvBadZip "1.0.0" "foo-1.0.json" wMod emptyCache
          emptyFs).admitted.isSome = true ↔
        ((runStep wArgs wEnvBadZip "1.0.0" "foo-1.0.json" wMod emptyCache
            emptyFs).result.getD ⟨[], [], [], none⟩).errors = []) ∧
      (((runStep wArgs wEnvBadZip "1.0.0" "foo-1.0.json" wMod emptyCache
            emptyFs).result.getD ⟨[], [], [], none⟩).errors ≠ [] →
        (runStep wArgs wEnvBadZip "1.0.0" "foo-1.0.json" wMod emptyCache
            emptyFs).admitted = none ∧
        (runStep wArgs wEnvBadZip "1.0.0" "foo-1.0.json" wMod emptyCache
            emptyFs).hashes (jsTrim (wMod.download.getD "")) = none)) :=
  ⟨by decide,
    c2_admission_gate wArgs wEnvBadZip "1.0.0" "foo-1.0.json" wMod emptyCache emptyFs
      (by decide)⟩

/-- A failed fatal validation makes the step exit immediately: nothing is
processed and the state is untouched. -/
theorem runStep_fatal_of_check (args : Args) (env : Env) (v f : String) (m : Mod)
    (c : HashCache) (fs : FileSet) (e : String)
    (hfc : fatalCheck v f m = some e) :
    runStep args env v f m c fs = ⟨some e, none, none, c, fs, [], [], []⟩ := by
  unfold runStep
  rw [hfc]

/-- A step whose fatal validation passes never exits the run. -/
theorem runStep_fatal_none (args : Args) (env : Env) (v f : String) (m : Mod)
    (c : HashCache) (fs : FileSet)
    (hfc : fatalCheck v f m = none) :
    (runStep args env v f m c fs).fatal = none := by
  obtain ⟨hn2, hi2, hv2, hd2⟩ := fatalCheck_fields hfc
  obtain ⟨p, hp⟩ := processQmod_isOk args env m v c fs (truthy_of_not_blank hi2)
    (truthy_of_not_blank hv2) (truthy_of_not_blank hd2)
  rw [runStep_ok hfc hp]
  split <;> rfl

/-- The inner loop never exits the run when every file passes validation. -/
theorem runFiles_fatal_none (args : Args) (env : Env) (v : String)
    (files : List (String × Mod)) :
    ∀ (c : HashCache) (fs : FileSet),
      (∀ fm ∈ files, fatalCheck v fm.1 fm.2 = none) →
      (runFiles args env v files c fs).fatal = none := by
  induction files with
  | nil => intro c fs _; rfl
  | cons fm rest ih =>
    intro c fs hall
    obtain ⟨f, m⟩ := fm
    have h1 : fatalCheck v f m = none := hall (f, m) (List.mem_cons_self _ _)
    have h2 := runStep_fatal_none args env v f m c fs h1
    simp only [runFiles]
    rw [h2]
    exact ih _ _ (fun fm hm => hall fm (List.mem_cons_of_mem _ hm))

/-- The outer loop never exits the run when every pair passes validation. -/
theorem runAll_fatal_none (args : Args) (env : Env)
    (input : List (String × List (String × Mod))) :
    ∀ (c : HashCache) (fs : FileSet),
      (∀ vf ∈ input, ∀ fm ∈ vf.2, fatalCheck vf.1 fm.1 fm.2 = none) →
      (runAll args env input c fs).fatal = none := by
  induction input with
  | nil => intro c fs _; rfl
  | cons vf rest ih =>
    intro c fs hall
    obtain ⟨v, files⟩ := vf
    have h1 := runFiles_fatal_none args env v files c fs
      (fun fm hm => hall (v, files) (List.mem_cons_self _ _) fm hm)
    simp only [runAll]
    rw [h1]
    exact ih _ _ (fun vf hm fm hfm => hall vf (List.mem_cons_of_mem _ hm) fm hfm)

/-- C9: fatal validation — a (game version, mod file) pair whose storage path
does not match the canonical path, whose name, id, version or download field
is blank, or whose modloader is not in the accepted set terminates the entire
run with the validation error before the mod is processed (no outcome, no
download, no archive load, no encode, state untouched); and when every
enumerated pair passes validation no per-mod recoverable failure ever
terminates the run. -/
theorem c9_fatal_validation :
    (∀ (args : Args) (env : Env) (v f : String) (m : Mod)
        (files : List (String × Mod)) (rest : List (String × List (String × Mod)))
        (c : HashCache) (fs : FileSet),
      fatalCheck v f m ≠ none →
      (runAll args env ((v, (f, m) :: files) :: rest) c fs).fatal = fatalCheck v f m ∧
      (runAll args env ((v, (f, m) :: files) :: rest) c fs).results = [] ∧
      (runAll args env ((v, (f, m) :: files) :: rest) c fs).downloads = [] ∧
      (runAll args env ((v, (f, m) :: files) :: rest) c fs).archiveLoads = [] ∧
      (runAll args env ((v, (f, m) :: files) :: rest) c fs).encodes = [] ∧
      (runAll args env ((v, (f, m) :: files) :: rest) c fs).hashes = c ∧
      (runAll args env ((v, (f, m) :: files) :: rest) c fs).fs = fs) ∧
    (∀ (args : Args) (env : Env) (input : List (String × List (String × Mod)))
        (c : HashCache) (fs : FileSet),
      (∀ vf ∈ input, ∀ fm ∈ vf.2, fatalCheck vf.1 fm.1 fm.2 = none) →
      (runAll args env input c fs).fatal = none) := by
  constructor
  · intro args env v f m files rest c fs hne
    obtain ⟨e, he⟩ : ∃ e, fatalCheck v f m = some e := by
      cases hx : fatalCheck v f m with
      | none => exact absurd hx hne
      | some e => exact ⟨e, rfl⟩
    have hs := runStep_fatal_of_check args env v f m c fs e he
    have hfi : runFiles args env v ((f, m) :: files) c fs =
        ⟨some e, [], c, fs, [], [], [], []⟩ := by
      simp only [runFiles]
      rw [hs]
    have hra : runAll args env ((v, (f, m) :: files) :: rest) c fs =
        ⟨some e, [(v, [])], c, fs, [], [], [], []⟩ := by
      simp only [runAll]
      rw [hfi]
    rw [hra, he]
    exact ⟨rfl, rfl, rfl, rfl, rfl, rfl, rfl⟩
  · intro args env input c fs hall
    exact runAll_fatal_none args env input c fs hall

/-- A mod record with a modloader outside the accepted set. -/
def wModBadLoader : Mod := { wMod with modloader := some "BadLoader" }

/-- Witness for C9: both conjuncts applied at concrete inputs — a run whose
first mod has an invalid modloader (first), and an all-valid run (second). -/
theorem c9_witness :
    (fatalCheck "1.0.0" "foo-1.0.json" wModBadLoader ≠ none ∧
      ((runAll wArgs wEnv [("1.0.0", [("foo-1.0.json", wModBadLoader)])] emptyCache
          emptyFs).fatal = fatalCheck "1.0.0" "foo-1.0.json" wModBadLoader ∧
        (runAll wArgs wEnv [("1.0.0", [("foo-1.0.json", wModBadLoader)])] emptyCache
          emptyFs).results = [] ∧
        (runAll wArgs wEnv [("1.0.0", [("foo-1.0.json", wModBadLoader)])] emptyCache
          emptyFs).downloads = [] ∧
        (runAll wArgs wEnv [("1.0.0", [("foo-1.0.json", wModBadLoader)])] emptyCache
          emptyFs).archiveLoads = [] ∧
        (runAll wArgs wEnv [("1.0.0", [("foo-1.0.json", wModBadLoader)])] emptyCache
          emptyFs).encodes = [] ∧
        (runAll wArgs wEnv [("1.0.0", [("foo-1.0.json", wModBadLoader)])] emptyCache
          emptyFs).hashes = emptyCache ∧
        (runAll wArgs wEnv [("1.0.0", [("foo-1.0.json", wModBadLoader)])] emptyCache
          emptyFs).fs = emptyFs)) ∧
    ((∀ vf ∈ [("1.0.0", [("foo-1.0.json", wMod)])], ∀ fm ∈ vf.2,
        fatalCheck vf.1 fm.1 fm.2 = none) ∧
      (runAll wArgs wEnv [("1.0.0", [("foo-1.0.json", wMod)])] emptyCache
        emptyFs).fatal = none) :=
  ⟨⟨by decide,
    c9_fatal_validation.1 wArgs wEnv "1.0.0" "foo-1.0.json" wModBadLoader [] []
      emptyCache emptyFs (by decide)⟩,
   ⟨by decide,
    c9_fatal_validation.2 wArgs wEnv [("1.0.0", [("foo-1.0.json", wMod)])]
      emptyCache emptyFs (by decide)⟩⟩

end Combine
